import Mathlib

set_option maxRecDepth 100000

/-!
Shallow embedding of the mx3-rs crate (bit mixer, hash function, PRNG,
and two streaming hashers), with machine integers modelled as Nat and
wrapping 64-bit arithmetic made explicit through reduction modulo 2^64.
Byte buffers are modelled as lists of Nat (each element a byte value).
-/

/-- 2^64, the modulus of wrapping u64 arithmetic. -/
def U64 : Nat := 2 ^ 64

/-- The multiplicative constant shared by all mx3 versions. -/
def PARAMETER_C : Nat := 0xbea225f9eb34556d

/-- u64::from_le_bytes applied to the first 8 entries of a byte list
(missing entries read as 0, matching the zero-initialised int_buf). -/
def fromLe8 (l : List Nat) : Nat :=
  (l.getD 0 0) ||| ((l.getD 1 0) <<< 8) ||| ((l.getD 2 0) <<< 16) ||| ((l.getD 3 0) <<< 24) |||
    ((l.getD 4 0) <<< 32) ||| ((l.getD 5 0) <<< 40) ||| ((l.getD 6 0) <<< 48) |||
    ((l.getD 7 0) <<< 56)

namespace V1

/-- v1::mix from src/v1.rs. -/
def mix (x : Nat) : Nat :=
  let x := (x * PARAMETER_C) % U64
  let x := x ^^^ (x >>> 33)
  let x := (x * PARAMETER_C) % U64
  let x := x ^^^ (x >>> 29)
  let x := (x * PARAMETER_C) % U64
  let x := x ^^^ (x >>> 39)
  x

/-- v1::mix_stream from src/v1.rs. -/
def mix_stream (h x : Nat) : Nat :=
  let x := (x * PARAMETER_C) % U64
  let x := x ^^^ ((x >>> 57) ^^^ (x >>> 33))
  let x := (x * PARAMETER_C) % U64
  let h := (h + x) % U64
  let h := (h * PARAMETER_C) % U64
  h

/-- The while loop of v1::hash consuming full 8-byte words. -/
def hashLoop (output : Nat) : List Nat → Nat × List Nat
  | b0 :: b1 :: b2 :: b3 :: b4 :: b5 :: b6 :: b7 :: rest =>
      hashLoop (mix_stream output (fromLe8 [b0, b1, b2, b3, b4, b5, b6, b7])) rest
  | remain => (output, remain)

/-- The last_int accumulation over the trailing bytes in v1::hash. -/
def last_int (remain : List Nat) : Nat :=
  let l := 0
  let l := if 7 ≤ remain.length then l ||| ((remain.getD 6 0) <<< 48) else l
  let l := if 6 ≤ remain.length then l ||| ((remain.getD 5 0) <<< 40) else l
  let l := if 5 ≤ remain.length then l ||| ((remain.getD 4 0) <<< 32) else l
  let l := if 4 ≤ remain.length then l ||| ((remain.getD 3 0) <<< 24) else l
  let l := if 3 ≤ remain.length then l ||| ((remain.getD 2 0) <<< 16) else l
  let l := if 2 ≤ remain.length then l ||| ((remain.getD 1 0) <<< 8) else l
  l

/-- v1::hash from src/v1.rs. -/
def hash (buffer : List Nat) (seed : Nat) : Nat :=
  let output := seed ^^^ buffer.length
  let p := hashLoop output buffer
  let remain := p.2
  let output := if remain.isEmpty then p.1
    else mix_stream p.1 (last_int remain ||| remain.getD 0 0)
  mix output

/-- v1's Mx3Rng::new: the counter is the unmodified seed. -/
def rng_new (seed : Nat) : Nat := seed

/-- v1's Mx3Rng::state: returns the counter. -/
def rng_state (counter : Nat) : Nat := counter

/-- v1's RngCore::next_u64: (returned value, new counter). -/
def next_u64 (counter : Nat) : Nat × Nat := (mix counter, (counter + 1) % U64)

/-- v1's RngCore::next_u32: next_u64 truncated to the low 32 bits. -/
def next_u32 (counter : Nat) : Nat × Nat :=
  let r := next_u64 counter
  (r.1 % 2 ^ 32, r.2)

/-- Counter after n next_u64 steps. -/
def step_n (counter : Nat) : Nat → Nat
  | 0 => counter
  | n + 1 => step_n (next_u64 counter).2 n

/-- The list of the next n next_u64 outputs from a given counter. -/
def draws (counter : Nat) : Nat → List Nat
  | 0 => []
  | n + 1 => (next_u64 counter).1 :: draws (next_u64 counter).2 n

end V1

namespace V2

/-- v2::mix from src/v2.rs. -/
def mix (x : Nat) : Nat :=
  let x := x ^^^ (x >>> 32)
  let x := (x * PARAMETER_C) % U64
  let x := x ^^^ (x >>> 29)
  let x := (x * PARAMETER_C) % U64
  let x := x ^^^ (x >>> 32)
  let x := (x * PARAMETER_C) % U64
  let x := x ^^^ (x >>> 29)
  x

/-- v2::mix_stream from src/v2.rs. -/
def mix_stream (h x : Nat) : Nat :=
  let x := (x * PARAMETER_C) % U64
  let x := x ^^^ ((x >>> 57) ^^^ (x >>> 43))
  let x := (x * PARAMETER_C) % U64
  let h := (h + x) % U64
  let h := (h * PARAMETER_C) % U64
  h

/-- The while loop of v2::hash consuming full 8-byte words. -/
def hashLoop (output : Nat) : List Nat → Nat × List Nat
  | b0 :: b1 :: b2 :: b3 :: b4 :: b5 :: b6 :: b7 :: rest =>
      hashLoop (mix_stream output (fromLe8 [b0, b1, b2, b3, b4, b5, b6, b7])) rest
  | remain => (output, remain)

/-- The last_int accumulation over the trailing bytes in v2::hash. -/
def last_int (remain : List Nat) : Nat :=
  let l := 0
  let l := if 7 ≤ remain.length then l ||| ((remain.getD 6 0) <<< 48) else l
  let l := if 6 ≤ remain.length then l ||| ((remain.getD 5 0) <<< 40) else l
  let l := if 5 ≤ remain.length then l ||| ((remain.getD 4 0) <<< 32) else l
  let l := if 4 ≤ remain.length then l ||| ((remain.getD 3 0) <<< 24) else l
  let l := if 3 ≤ remain.length then l ||| ((remain.getD 2 0) <<< 16) else l
  let l := if 2 ≤ remain.length then l ||| ((remain.getD 1 0) <<< 8) else l
  l

/-- v2::hash from src/v2.rs. -/
def hash (buffer : List Nat) (seed : Nat) : Nat :=
  let output := seed ^^^ buffer.length
  let p := hashLoop output buffer
  let remain := p.2
  let output := if remain.isEmpty then p.1
    else mix_stream p.1 (last_int remain ||| remain.getD 0 0)
  mix output

/-- v2's Mx3Rng::new: the counter is the unmodified seed. -/
def rng_new (seed : Nat) : Nat := seed

/-- v2's Mx3Rng::state: returns the counter. -/
def rng_state (counter : Nat) : Nat := counter

/-- v2's RngCore::next_u64: (returned value, new counter). -/
def next_u64 (counter : Nat) : Nat × Nat := (mix counter, (counter + 1) % U64)

/-- v2's RngCore::next_u32: next_u64 truncated to the low 32 bits. -/
def next_u32 (counter : Nat) : Nat × Nat :=
  let r := next_u64 counter
  (r.1 % 2 ^ 32, r.2)

/-- Counter after n next_u64 steps. -/
def step_n (counter : Nat) : Nat → Nat
  | 0 => counter
  | n + 1 => step_n (next_u64 counter).2 n

/-- The list of the next n next_u64 outputs from a given counter. -/
def draws (counter : Nat) : Nat → List Nat
  | 0 => []
  | n + 1 => (next_u64 counter).1 :: draws (next_u64 counter).2 n

end V2

namespace V3

/-- v3::mix from src/v3.rs. -/
def mix (x : Nat) : Nat :=
  let x := x ^^^ (x >>> 32)
  let x := (x * PARAMETER_C) % U64
  let x := x ^^^ (x >>> 29)
  let x := (x * PARAMETER_C) % U64
  let x := x ^^^ (x >>> 32)
  let x := (x * PARAMETER_C) % U64
  let x := x ^^^ (x >>> 29)
  x

/-- v3::mix_stream_2 from src/v3.rs. -/
def mix_stream_2 (h x : Nat) : Nat :=
  let x := (x * PARAMETER_C) % U64
  let x := x ^^^ (x >>> 39)
  let h := (h + (x * PARAMETER_C) % U64) % U64
  let h := (h * PARAMETER_C) % U64
  h

/-- v3::mix_stream_5 from src/v3.rs. -/
def mix_stream_5 (h a b c d : Nat) : Nat :=
  let a := (a * PARAMETER_C) % U64
  let b := (b * PARAMETER_C) % U64
  let c := (c * PARAMETER_C) % U64
  let d := (d * PARAMETER_C) % U64
  let a := a ^^^ (a >>> 39)
  let b := b ^^^ (b >>> 39)
  let c := c ^^^ (c >>> 39)
  let d := d ^^^ (d >>> 39)
  let h := (h + (a * PARAMETER_C) % U64) % U64
  let h := (h * PARAMETER_C) % U64
  let h := (h + (b * PARAMETER_C) % U64) % U64
  let h := (h * PARAMETER_C) % U64
  let h := (h + (c * PARAMETER_C) % U64) % U64
  let h := (h * PARAMETER_C) % U64
  let h := (h + (d * PARAMETER_C) % U64) % U64
  let h := (h * PARAMETER_C) % U64
  h

/-- One iteration body plus recursion of the 64-byte block loop in v3::hash,
driven by explicit fuel (one unit per loop iteration); the wrapper
hashBlockLoop supplies enough fuel for the loop's actual trip count. -/
def hashBlockLoopF (output : Nat) (remain : List Nat) : Nat → Nat × List Nat
  | 0 => (output, remain)
  | fuel + 1 =>
    if 64 ≤ remain.length then
      let left := remain.take 64
      let w0 := fromLe8 ((left.drop 0).take 8)
      let w1 := fromLe8 ((left.drop 8).take 8)
      let w2 := fromLe8 ((left.drop 16).take 8)
      let w3 := fromLe8 ((left.drop 24).take 8)
      let w4 := fromLe8 ((left.drop 32).take 8)
      let w5 := fromLe8 ((left.drop 40).take 8)
      let w6 := fromLe8 ((left.drop 48).take 8)
      let w7 := fromLe8 ((left.drop 56).take 8)
      let output := mix_stream_5 output w0 w1 w2 w3
      let output := mix_stream_5 output w4 w5 w6 w7
      hashBlockLoopF output (remain.drop 64) fuel
    else (output, remain)

/-- The while loop of v3::hash consuming full 64-byte blocks. -/
def hashBlockLoop (output : Nat) (remain : List Nat) : Nat × List Nat :=
  hashBlockLoopF output remain remain.length

/-- The while loop of v3::hash consuming full 8-byte words. -/
def hashWordLoop (output : Nat) : List Nat → Nat × List Nat
  | b0 :: b1 :: b2 :: b3 :: b4 :: b5 :: b6 :: b7 :: rest =>
      hashWordLoop (mix_stream_2 output (fromLe8 [b0, b1, b2, b3, b4, b5, b6, b7])) rest
  | remain => (output, remain)

/-- The final match on remain.len() in v3::hash; the source's
unreachable!() arm is modelled as none. -/
def hashTail (output : Nat) (remain : List Nat) : Option Nat :=
  match remain.length with
  | 0 => some (mix output)
  | 1 => some (mix (mix_stream_2 output (remain.getD 0 0)))
  | 2 => some (mix (mix_stream_2 output
      (((remain.getD 1 0) <<< 8) ||| remain.getD 0 0)))
  | 3 => some (mix (mix_stream_2 output
      (((remain.getD 2 0) <<< 16) ||| ((remain.getD 1 0) <<< 8) ||| remain.getD 0 0)))
  | 4 => some (mix (mix_stream_2 output
      (((remain.getD 3 0) <<< 24) ||| ((remain.getD 2 0) <<< 16) |||
        ((remain.getD 1 0) <<< 8) ||| remain.getD 0 0)))
  | 5 => some (mix (mix_stream_2 output
      (((remain.getD 4 0) <<< 32) ||| ((remain.getD 3 0) <<< 24) |||
        ((remain.getD 2 0) <<< 16) ||| ((remain.getD 1 0) <<< 8) ||| remain.getD 0 0)))
  | 6 => some (mix (mix_stream_2 output
      (((remain.getD 5 0) <<< 40) ||| ((remain.getD 4 0) <<< 32) |||
        ((remain.getD 3 0) <<< 24) ||| ((remain.getD 2 0) <<< 16) |||
        ((remain.getD 1 0) <<< 8) ||| remain.getD 0 0)))
  | 7 => some (mix (mix_stream_2 output
      (((remain.getD 6 0) <<< 48) ||| ((remain.getD 5 0) <<< 40) |||
        ((remain.getD 4 0) <<< 32) ||| ((remain.getD 3 0) <<< 24) |||
        ((remain.getD 2 0) <<< 16) ||| ((remain.getD 1 0) <<< 8) ||| remain.getD 0 0)))
  | _ => none

/-- v3::hash from src/v3.rs, with none standing for the unreachable!() panic. -/
def hashOpt (buffer : List Nat) (seed : Nat) : Option Nat :=
  let output := mix_stream_2 seed (buffer.length + 1)
  let p := hashBlockLoop output buffer
  let q := hashWordLoop p.1 p.2
  hashTail q.1 q.2

/-- v3::hash as a total function (justified by the totality theorem for hashOpt). -/
def hash (buffer : List Nat) (seed : Nat) : Nat := (hashOpt buffer seed).getD 0

/-- v3's Mx3Rng::new: the counter is mix(seed wrapping_add PARAMETER_C). -/
def rng_new (seed : Nat) : Nat := mix ((seed + PARAMETER_C) % U64)

/-- v3's Mx3Rng::resume: the counter is the captured state, unmodified. -/
def rng_resume (state : Nat) : Nat := state

/-- v3's Mx3Rng::state: returns the counter. -/
def rng_state (counter : Nat) : Nat := counter

/-- v3's RngCore::next_u64: (returned value, new counter). -/
def next_u64 (counter : Nat) : Nat × Nat := (mix counter, (counter + 1) % U64)

/-- v3's RngCore::next_u32: next_u64 truncated to the low 32 bits. -/
def next_u32 (counter : Nat) : Nat × Nat :=
  let r := next_u64 counter
  (r.1 % 2 ^ 32, r.2)

/-- Counter after n next_u64 steps. -/
def step_n (counter : Nat) : Nat → Nat
  | 0 => counter
  | n + 1 => step_n (next_u64 counter).2 n

/-- The list of the next n next_u64 outputs from a given counter. -/
def draws (counter : Nat) : Nat → List Nat
  | 0 => []
  | n + 1 => (next_u64 counter).1 :: draws (next_u64 counter).2 n

end V3

namespace Lib

/-- Crate-root mix from src/lib.rs. -/
def mix (x : Nat) : Nat :=
  let x := x ^^^ (x >>> 32)
  let x := (x * PARAMETER_C) % U64
  let x := x ^^^ (x >>> 29)
  let x := (x * PARAMETER_C) % U64
  let x := x ^^^ (x >>> 32)
  let x := (x * PARAMETER_C) % U64
  let x := x ^^^ (x >>> 29)
  x

/-- Mx3Hasher::mix_stream from src/lib.rs. -/
def mix_stream (h x : Nat) : Nat :=
  let x := (x * PARAMETER_C) % U64
  let x := x ^^^ ((x >>> 57) ^^^ (x >>> 43))
  let x := (x * PARAMETER_C) % U64
  let h := (h + x) % U64
  let h := (h * PARAMETER_C) % U64
  h

/-- The aligned stream hasher of src/lib.rs. The field pibuf models the
filled prefix of partial_int_buffer, so pibuf.length is
partial_int_buffer_len; bytes of the 8-byte array beyond that count are
never read by any method, so they are omitted. -/
structure Mx3Hasher where
  state : Nat
  pibuf : List Nat

/-- Mx3Hasher::new from src/lib.rs. -/
def Mx3Hasher.new (seed : Nat) : Mx3Hasher := ⟨seed, []⟩

/-- Mx3Hasher::new_with_length from src/lib.rs. -/
def Mx3Hasher.new_with_length (seed : Nat) (buffer_len : Nat) : Mx3Hasher :=
  Mx3Hasher.new (seed ^^^ buffer_len)

/-- Mx3Hasher::write_into_partial_int_buffer: reads
min(8 - partial_int_buffer_len, cursor remaining) bytes from the cursor
(modelled by its unread suffix) into the buffer. Returns the updated
hasher, the remaining cursor contents, and the number of bytes read. -/
def writeIntoPibuf (h : Mx3Hasher) (cur : List Nat) : Mx3Hasher × List Nat × Nat :=
  let n := min (8 - h.pibuf.length) cur.length
  (⟨h.state, h.pibuf ++ cur.take n⟩, (cur.drop n, n))

/-- Mx3Hasher::apply_partial_int_buffer from src/lib.rs. -/
def applyPibuf (h : Mx3Hasher) : Mx3Hasher :=
  ⟨mix_stream h.state (fromLe8 h.pibuf), []⟩

/-- The while loop of Mx3Hasher::write: while bytes_remaining >= 8,
read_exact 8 bytes from the cursor and fold them with mix_stream.
A failing read_exact (fewer than 8 unread bytes) models the
.unwrap() panic as none. -/
def wordsLoop (st : Nat) (cur : List Nat) (br : Nat) : Option (Nat × List Nat) :=
  if 8 ≤ br then
    match cur with
    | b0 :: b1 :: b2 :: b3 :: b4 :: b5 :: b6 :: b7 :: rest =>
        wordsLoop (mix_stream st (fromLe8 [b0, b1, b2, b3, b4, b5, b6, b7])) rest (br - 8)
    | _ => none
  else some (st, cur)

/-- The part of Mx3Hasher::write after the initial partial-buffer stage:
the word loop followed by the final write_into_partial_int_buffer. -/
def writeTail (h : Mx3Hasher) (cur : List Nat) (br : Nat) : Option Mx3Hasher :=
  match wordsLoop h.state cur br with
  | none => none
  | some (st, cur2) => some (writeIntoPibuf ⟨st, h.pibuf⟩ cur2).1

/-- Hasher::write for the aligned hasher in src/lib.rs. -/
def write (h : Mx3Hasher) (bytes : List Nat) : Option Mx3Hasher :=
  if 0 < h.pibuf.length then
    let r := writeIntoPibuf h bytes
    let h1 := r.1
    let cur1 := r.2.1
    let br1 := bytes.length - r.2.2
    if h1.pibuf.length = 8 then writeTail (applyPibuf h1) cur1 br1
    else some h1
  else writeTail h bytes bytes.length

/-- The v accumulation over the pending bytes in Mx3Hasher::finish. -/
def finishV (p : List Nat) : Nat :=
  let l := 0
  let l := if 7 ≤ p.length then l ||| ((p.getD 6 0) <<< 48) else l
  let l := if 6 ≤ p.length then l ||| ((p.getD 5 0) <<< 40) else l
  let l := if 5 ≤ p.length then l ||| ((p.getD 4 0) <<< 32) else l
  let l := if 4 ≤ p.length then l ||| ((p.getD 3 0) <<< 24) else l
  let l := if 3 ≤ p.length then l ||| ((p.getD 2 0) <<< 16) else l
  let l := if 2 ≤ p.length then l ||| ((p.getD 1 0) <<< 8) else l
  l

/-- Hasher::finish for the aligned hasher in src/lib.rs. -/
def finish (h : Mx3Hasher) : Nat :=
  let v := finishV h.pibuf
  let hh := if 1 ≤ h.pibuf.length then mix_stream h.state (v ||| h.pibuf.getD 0 0)
    else h.state
  mix hh

/-- Crate-root hash from src/lib.rs: new_with_length, one write, finish
(the write is total; 0 stands for the impossible panic). -/
def hash (buffer : List Nat) (seed : Nat) : Nat :=
  match write (Mx3Hasher.new_with_length seed buffer.length) buffer with
  | some h => finish h
  | none => 0

/-- A sequence of write calls, one per chunk, aborting on a (never
occurring) panic. -/
def writeChunks (h : Mx3Hasher) : List (List Nat) → Option Mx3Hasher
  | [] => some h
  | c :: cs =>
    match write h c with
    | none => none
    | some h2 => writeChunks h2 cs

/-- Crate-root Mx3Rng::new: the counter is the unmodified seed. -/
def rng_new (seed : Nat) : Nat := seed

/-- Crate-root Mx3Rng::state: returns the counter. -/
def rng_state (counter : Nat) : Nat := counter

/-- Crate-root RngCore::next_u64: (returned value, new counter). -/
def next_u64 (counter : Nat) : Nat × Nat := (mix counter, (counter + 1) % U64)

/-- Crate-root RngCore::next_u32: next_u64 truncated to the low 32 bits. -/
def next_u32 (counter : Nat) : Nat × Nat :=
  let r := next_u64 counter
  (r.1 % 2 ^ 32, r.2)

/-- The list of the next n next_u64 outputs from a given counter. -/
def draws (counter : Nat) : Nat → List Nat
  | 0 => []
  | n + 1 => (next_u64 counter).1 :: draws (next_u64 counter).2 n

end Lib

namespace Chunked

/-- The chunked stream hasher of src/hasher.rs. The field buf models the
filled prefix of the 1024-byte buffer, so buf.length is buf_filled;
bytes beyond that count are never read by any method. -/
structure Mx3Hasher where
  seed : Nat
  state : Nat
  buf : List Nat

/-- Mx3Hasher::new from src/hasher.rs. -/
def new (seed : Nat) : Mx3Hasher := ⟨seed, V3.mix seed, []⟩

/-- The while loop of Hasher::write in src/hasher.rs, driven by explicit
fuel (one unit per loop iteration) because the loop does not terminate on
all inputs: as in the source, amount and the split are computed from the
original bytes slice, not from remain. -/
def writeLoop (bytes : List Nat) : Nat → Mx3Hasher → List Nat → Option Mx3Hasher
  | 0, _, _ => none
  | fuel + 1, h, remain =>
    if remain.isEmpty then some h
    else
      let amount := min bytes.length (1024 - h.buf.length)
      let left := bytes.take amount
      let right := bytes.drop amount
      let buf2 := h.buf ++ left
      let h2 := if buf2.length = 1024
        then Mx3Hasher.mk h.seed (h.state ^^^ V3.hash buf2 h.seed) []
        else Mx3Hasher.mk h.seed h.state buf2
      writeLoop bytes fuel h2 right

/-- Hasher::write for the chunked hasher in src/hasher.rs: run the loop
with the given fuel, none meaning the loop is still running. -/
def write (fuel : Nat) (h : Mx3Hasher) (bytes : List Nat) : Option Mx3Hasher :=
  writeLoop bytes fuel h bytes

/-- Hasher::finish for the chunked hasher in src/hasher.rs. -/
def finish (h : Mx3Hasher) : Nat :=
  if 0 < h.buf.length then h.state ^^^ V3.hash h.buf h.seed else h.state

end Chunked

section ChunkedLemmas

/-- If at least 1025 bytes are passed to one chunked write call, then once the
loop state reaches an empty buffer with the last bytes still unprocessed, every
further iteration re-splits the original slice at 1024 and never empties
remain: the loop runs out of any amount of fuel. -/
lemma chunked_writeLoop_stuck (bytes : List Nat) (hlen : 1025 ≤ bytes.length) :
    ∀ fuel seed st,
      Chunked.writeLoop bytes fuel ⟨seed, st, []⟩ (bytes.drop 1024) = none := by
  intro fuel
  induction fuel with
  | zero => intro seed st; rfl
  | succ fuel ih =>
    intro seed st
    have hL : (bytes.drop 1024).length = bytes.length - 1024 := by simp
    obtain ⟨a, t, hbd⟩ : ∃ a t, bytes.drop 1024 = a :: t := by
      cases hbd : bytes.drop 1024 with
      | nil => rw [hbd] at hL; simp at hL; omega
      | cons a t => exact ⟨a, t, rfl⟩
    rw [Chunked.writeLoop, hbd]
    simp only [List.isEmpty_cons, Bool.false_eq_true, if_false, List.length_nil, Nat.sub_zero,
      List.nil_append]
    have hamt : min bytes.length 1024 = 1024 := by omega
    rw [hamt]
    have hb2 : (bytes.take 1024).length = 1024 := by simp; omega
    rw [if_pos hb2]
    exact ih seed _

/-- Any single chunked write call of at least 1025 bytes from a freshly
constructed hasher exhausts every amount of fuel. -/
lemma chunked_write_none_of_long (bytes : List Nat) (hlen : 1025 ≤ bytes.length) :
    ∀ fuel seed, Chunked.write fuel (Chunked.new seed) bytes = none := by
  intro fuel seed
  cases fuel with
  | zero => rfl
  | succ fuel =>
    obtain ⟨a, t, hb⟩ : ∃ a t, bytes = a :: t := by
      cases hbb : bytes with
      | nil => rw [hbb] at hlen; simp at hlen
      | cons a t => exact ⟨a, t, rfl⟩
    have hie : bytes.isEmpty = false := by rw [hb]; rfl
    rw [Chunked.write, Chunked.new, Chunked.writeLoop, hie]
    simp only [Bool.false_eq_true, if_false, List.length_nil, Nat.sub_zero, List.nil_append]
    have hamt : min bytes.length 1024 = 1024 := by omega
    rw [hamt]
    have hb2 : (bytes.take 1024).length = 1024 := by simp; omega
    rw [if_pos hb2]
    exact chunked_writeLoop_stuck bytes hlen fuel seed _

end ChunkedLemmas

/-- C1: refuted on the code as written. For the 1025-byte input (all zero
bytes) and a fresh chunked hasher, the write loop never terminates: for every
amount of fuel the loop is still running. The loop recomputes amount and the
split from the original bytes slice instead of remain, so remain stays stuck
at the final byte. -/
theorem chunked_write_diverges_on_1025_bytes (fuel : Nat) :
    Chunked.write fuel (Chunked.new 1) (List.replicate 1025 0) = none :=
  chunked_write_none_of_long _ (by simp) fuel 1

/-- C4: in each of v1, v2 and v3, next_u64 returns mix of the current counter
and advances the counter by exactly one (wrapping); next_u32 performs the same
full single-step advance and returns the low 32 bits of the same draw; hence a
second next_u32 call returns the low 32 bits of mix at the next counter. At
the concrete v3 seed 1 the second next_u32 output differs from the high half
of the first next_u64 draw: the two u32 draws are not the halves of one u64
draw. -/
theorem rng_next_u64_next_u32_single_step :
    (∀ c : Nat,
        V1.next_u64 c = (V1.mix c, (c + 1) % U64)
      ∧ V1.next_u32 c = ((V1.next_u64 c).1 % 2 ^ 32, (V1.next_u64 c).2)
      ∧ (V1.next_u32 ((V1.next_u32 c).2)).1 = V1.mix ((c + 1) % U64) % 2 ^ 32)
    ∧ (∀ c : Nat,
        V2.next_u64 c = (V2.mix c, (c + 1) % U64)
      ∧ V2.next_u32 c = ((V2.next_u64 c).1 % 2 ^ 32, (V2.next_u64 c).2)
      ∧ (V2.next_u32 ((V2.next_u32 c).2)).1 = V2.mix ((c + 1) % U64) % 2 ^ 32)
    ∧ (∀ c : Nat,
        V3.next_u64 c = (V3.mix c, (c + 1) % U64)
      ∧ V3.next_u32 c = ((V3.next_u64 c).1 % 2 ^ 32, (V3.next_u64 c).2)
      ∧ (V3.next_u32 ((V3.next_u32 c).2)).1 = V3.mix ((c + 1) % U64) % 2 ^ 32)
    ∧ (V3.next_u32 ((V3.next_u32 (V3.rng_new 1)).2)).1
        ≠ (V3.next_u64 (V3.rng_new 1)).1 >>> 32 :=
  ⟨fun _ => ⟨rfl, rfl, rfl⟩, fun _ => ⟨rfl, rfl, rfl⟩, fun _ => ⟨rfl, rfl, rfl⟩, by decide⟩

/-- C5: state round-trips. For every seed and every number N of draws, a v3
generator resumed from the captured state produces exactly the next M draws of
the original generator; for v1 and v2 the same holds with new in place of
resume, since those constructors do not modify the seed. -/
theorem rng_state_resume_roundtrip :
    (∀ seed N M : Nat,
        V3.draws (V3.rng_resume (V3.rng_state (V3.step_n (V3.rng_new seed) N))) M
          = V3.draws (V3.step_n (V3.rng_new seed) N) M)
    ∧ (∀ seed N M : Nat,
        V1.draws (V1.rng_new (V1.rng_state (V1.step_n (V1.rng_new seed) N))) M
          = V1.draws (V1.step_n (V1.rng_new seed) N) M)
    ∧ (∀ seed N M : Nat,
        V2.draws (V2.rng_new (V2.rng_state (V2.step_n (V2.rng_new seed) N))) M
          = V2.draws (V2.step_n (V2.rng_new seed) N) M) :=
  ⟨fun _ _ _ => rfl, fun _ _ _ => rfl, fun _ _ _ => rfl⟩

/-- C6: the known-answer vectors of the repository hold exactly: mix of
123456789 in each version, v1::hash of the 4-byte buffer "abcd", and the first
two next_u64 outputs of the v3 PRNG seeded with 1. -/
theorem known_answer_vectors :
    V1.mix 123456789 = 0x566319fa1c03230f
    ∧ V2.mix 123456789 = 0x95bd1de6327dae0a
    ∧ V3.mix 123456789 = 0x95bd1de6327dae0a
    ∧ V1.hash [0x61, 0x62, 0x63, 0x64] 123456789 = 0x9cc98e8e7bcb7bab
    ∧ (V3.next_u64 (V3.rng_new 1)).1 = 0xe8ebdbc439df412a
    ∧ (V3.next_u64 (V3.next_u64 (V3.rng_new 1)).2).1 = 0x4d476d5425a174d9 := by
  refine ⟨by decide, by decide, by decide, by decide, by decide, by decide⟩

/-- The 1025-byte all-zero sequence used to exhibit boundary sensitivity. -/
def bsSeq : List Nat := List.replicate 1025 0

/-- The digest of bsSeq fed to the chunked hasher as 1024 bytes then 1 byte. -/
def bsRunA : Option Nat :=
  ((Chunked.write 8 (Chunked.new 123456789) (bsSeq.take 1024)).bind
    (fun h => Chunked.write 8 h (bsSeq.drop 1024))).map Chunked.finish

/-- The digest of bsSeq fed to the chunked hasher as 1 byte then 1024 bytes. -/
def bsRunB : Option Nat :=
  ((Chunked.write 8 (Chunked.new 123456789) (bsSeq.take 1)).bind
    (fun h => Chunked.write 8 h (bsSeq.drop 1))).map Chunked.finish

/-- C3: the chunked hasher's digest depends on where the chunk boundaries
fall: the same 1025-byte sequence under seed 123456789, split as 1024+1 bytes
versus 1+1024 bytes across two write calls, terminates in both runs yet yields
two different finish digests, and neither digest equals the one-shot v3 hash
of the whole sequence with the same seed. -/
theorem chunked_digest_boundary_sensitive :
    bsRunA.isSome = true ∧ bsRunB.isSome = true ∧ bsRunA ≠ bsRunB
    ∧ bsRunA ≠ some (V3.hash bsSeq 123456789)
    ∧ bsRunB ≠ some (V3.hash bsSeq 123456789) := by
  refine ⟨by decide, by decide, by decide, by decide, by decide⟩

lemma v2hashLoop_small (st : Nat) (l : List Nat) (hlt : l.length < 8) :
    V2.hashLoop st l = (st, l) := by
  rcases l with _ | ⟨b0, _ | ⟨b1, _ | ⟨b2, _ | ⟨b3, _ | ⟨b4, _ | ⟨b5, _ | ⟨b6, _ | ⟨b7, t⟩⟩⟩⟩⟩⟩⟩⟩ <;>
    first
      | rfl
      | (exfalso; simp at hlt; omega)

lemma v2hashLoop_peel (st : Nat) (l : List Nat) (hge : 8 ≤ l.length) :
    V2.hashLoop st l
      = V2.hashLoop (V2.mix_stream st (fromLe8 (l.take 8))) (l.drop 8) := by
  rcases l with _ | ⟨b0, _ | ⟨b1, _ | ⟨b2, _ | ⟨b3, _ | ⟨b4, _ | ⟨b5, _ | ⟨b6, _ | ⟨b7, t⟩⟩⟩⟩⟩⟩⟩⟩ <;>
    first
      | rfl
      | (exfalso; simp at hge)

lemma v2hashLoop_snd_len_aux :
    ∀ n (l : List Nat) (st : Nat), l.length ≤ n → ((V2.hashLoop st l).2).length < 8 := by
  intro n
  induction n with
  | zero =>
    intro l st hle
    rw [v2hashLoop_small st l (by omega)]
    simp
    omega
  | succ n ih =>
    intro l st hle
    by_cases h8 : 8 ≤ l.length
    · rw [v2hashLoop_peel st l h8]
      exact ih _ _ (by simp; omega)
    · rw [v2hashLoop_small st l (by omega)]
      simp
      omega

lemma v2hashLoop_snd_len (st : Nat) (l : List Nat) : ((V2.hashLoop st l).2).length < 8 :=
  v2hashLoop_snd_len_aux l.length l st le_rfl

/-- Reference byte-at-a-time absorption step: append one byte to the pending
buffer, and when 8 bytes are pending mix them into the state as one
little-endian word. -/
def step1 (s : Nat × List Nat) (b : Nat) : Nat × List Nat :=
  let p := s.2 ++ [b]
  if p.length = 8 then (V2.mix_stream s.1 (fromLe8 p), []) else (s.1, p)

lemma foldl_step1_eq_v2hashLoop :
    ∀ (l : List Nat) (st : Nat) (p : List Nat), p.length < 8 →
      List.foldl step1 (st, p) l = V2.hashLoop st (p ++ l) := by
  intro l
  induction l with
  | nil =>
    intro st p hp
    simp [v2hashLoop_small st p hp]
  | cons b l ih =>
    intro st p hp
    rw [List.foldl_cons]
    by_cases h8 : (p ++ [b]).length = 8
    · have hs : step1 (st, p) b = (V2.mix_stream st (fromLe8 (p ++ [b])), []) := by
        simp only [step1]
        rw [if_pos h8]
      rw [hs, ih _ _ (by simp)]
      rw [v2hashLoop_peel st (p ++ b :: l) (by simp at h8 ⊢; omega)]
      have hpb : p ++ b :: l = (p ++ [b]) ++ l := by simp
      rw [hpb, List.take_left' h8, List.drop_left' h8]
      simp
    · have hs : step1 (st, p) b = (st, p ++ [b]) := by
        simp only [step1]
        rw [if_neg h8]
      rw [hs, ih _ _ (by simp at h8 ⊢; omega)]
      simp

lemma v2hashLoop_append (st : Nat) (l1 l2 : List Nat) :
    V2.hashLoop st (l1 ++ l2)
      = V2.hashLoop (V2.hashLoop st l1).1 ((V2.hashLoop st l1).2 ++ l2) := by
  have h0 : (([] : List Nat)).length < 8 := by simp
  have h1 := foldl_step1_eq_v2hashLoop (l1 ++ l2) st [] h0
  rw [List.nil_append, List.foldl_append] at h1
  rw [foldl_step1_eq_v2hashLoop l1 st [] h0, List.nil_append] at h1
  rw [← h1]
  have h2 := foldl_step1_eq_v2hashLoop l2 (V2.hashLoop st l1).1 (V2.hashLoop st l1).2
    (v2hashLoop_snd_len st l1)
  rw [← h2]

lemma lib_mix_stream_eq : Lib.mix_stream = V2.mix_stream := rfl

lemma lib_wordsLoop_small (st : Nat) (cur : List Nat) (br : Nat) (hlt : br < 8) :
    Lib.wordsLoop st cur br = some (st, cur) := by
  rw [Lib.wordsLoop.eq_def, if_neg (by omega)]

lemma lib_wordsLoop_eq :
    ∀ n (cur : List Nat) (st br : Nat), cur.length ≤ n → cur.length = br →
      Lib.wordsLoop st cur br = some (V2.hashLoop st cur) := by
  intro n
  induction n with
  | zero =>
    intro cur st br hle hbr
    rw [lib_wordsLoop_small st cur br (by omega), v2hashLoop_small st cur (by omega)]
  | succ n ih =>
    intro cur st br hle hbr
    by_cases h8 : 8 ≤ br
    · have hc8 : 8 ≤ cur.length := by omega
      rcases cur with _ | ⟨b0, _ | ⟨b1, _ | ⟨b2, _ | ⟨b3, _ | ⟨b4, _ | ⟨b5, _ | ⟨b6, _ | ⟨b7, t⟩⟩⟩⟩⟩⟩⟩⟩ <;>
        first
          | (exfalso; simp at hc8 <;> omega)
          | skip
      rw [Lib.wordsLoop.eq_def, if_pos h8]
      simp only []
      rw [v2hashLoop_peel st _ hc8]
      have ht : t.length ≤ n := by simp at hle; omega
      have htbr : t.length = br - 8 := by simp at hbr; omega
      rw [← lib_mix_stream_eq] at *
      exact ih t _ (br - 8) ht htbr
    · rw [lib_wordsLoop_small st cur br (by omega), v2hashLoop_small st cur (by omega)]

lemma lib_write_eq (st : Nat) (p bytes : List Nat) (hp : p.length < 8) :
    Lib.write ⟨st, p⟩ bytes
      = some ⟨(V2.hashLoop st (p ++ bytes)).1, (V2.hashLoop st (p ++ bytes)).2⟩ := by
  rcases Nat.eq_zero_or_pos p.length with hp0 | hp0
  · have hpe : p = [] := List.length_eq_zero.mp hp0
    subst hpe
    rcases hq : V2.hashLoop st bytes with ⟨st2, cur2⟩
    have hlen : cur2.length < 8 := by
      have h9 := v2hashLoop_snd_len st bytes
      rw [hq] at h9
      simpa using h9
    rw [Lib.write, if_neg (by simp), Lib.writeTail,
      lib_wordsLoop_eq bytes.length bytes st bytes.length le_rfl rfl, hq]
    simp only [List.nil_append, Lib.writeIntoPibuf, List.length_nil, Nat.sub_zero]
    have hmin : min 8 cur2.length = cur2.length := by omega
    rw [hmin, List.take_length, hq]
  · rw [Lib.write, if_pos hp0]
    simp only [Lib.writeIntoPibuf]
    by_cases hfill : 8 - p.length ≤ bytes.length
    · have hn : min (8 - p.length) bytes.length = 8 - p.length := by omega
      rw [hn]
      have hlen1 : (p ++ bytes.take (8 - p.length)).length = 8 := by
        simp [List.length_take]
        omega
      rw [if_pos hlen1]
      simp only [Lib.applyPibuf, lib_mix_stream_eq]
      rcases hq : V2.hashLoop (V2.mix_stream st (fromLe8 (p ++ bytes.take (8 - p.length))))
          (bytes.drop (8 - p.length)) with ⟨st2, cur2⟩
      have hlen2 : cur2.length < 8 := by
        have h9 := v2hashLoop_snd_len
          (V2.mix_stream st (fromLe8 (p ++ bytes.take (8 - p.length)))) (bytes.drop (8 - p.length))
        rw [hq] at h9
        simpa using h9
      rw [Lib.writeTail, lib_wordsLoop_eq (bytes.drop (8 - p.length)).length _ _ _ le_rfl (by simp), hq]
      simp only [Lib.writeIntoPibuf, List.length_nil, Nat.sub_zero, List.nil_append]
      have hmin : min 8 cur2.length = cur2.length := by omega
      rw [hmin, List.take_length]
      rw [v2hashLoop_peel st (p ++ bytes) (by simp; omega)]
      have htake : (p ++ bytes).take 8 = p ++ bytes.take (8 - p.length) := by
        rw [List.take_append_eq_append_take, List.take_of_length_le (by omega)]
      have hdrop : (p ++ bytes).drop 8 = bytes.drop (8 - p.length) := by
        rw [List.drop_append_eq_append_drop, List.drop_eq_nil_of_le (by omega), List.nil_append]
      rw [htake, hdrop, hq]
    · have hn : min (8 - p.length) bytes.length = bytes.length := by omega
      rw [hn, List.take_length]
      have hne : ¬ (p ++ bytes).length = 8 := by simp; omega
      rw [if_neg hne]
      rw [v2hashLoop_small st (p ++ bytes) (by simp; omega)]

lemma lib_mix_eq : Lib.mix = V2.mix := rfl

lemma lib_finishV_eq : Lib.finishV = V2.last_int := rfl

lemma v2hash_eq_finish (buffer : List Nat) (seed : Nat) :
    V2.hash buffer seed
      = Lib.finish ⟨(V2.hashLoop (seed ^^^ buffer.length) buffer).1,
          (V2.hashLoop (seed ^^^ buffer.length) buffer).2⟩ := by
  rw [V2.hash, Lib.finish]
  generalize (V2.hashLoop (seed ^^^ buffer.length) buffer).1 = o
  generalize (V2.hashLoop (seed ^^^ buffer.length) buffer).2 = r
  simp only [lib_mix_eq, lib_mix_stream_eq, lib_finishV_eq]
  cases r with
  | nil => rfl
  | cons a t =>
    simp only [List.isEmpty_cons, Bool.false_eq_true, if_false]
    rw [if_pos (show 1 ≤ (a :: t).length by simp)]

lemma lib_writeChunks_eq :
    ∀ (chunks : List (List Nat)) (st : Nat) (p : List Nat), p.length < 8 →
      Lib.writeChunks ⟨st, p⟩ chunks
        = some ⟨(V2.hashLoop st (p ++ chunks.flatten)).1, (V2.hashLoop st (p ++ chunks.flatten)).2⟩ := by
  intro chunks
  induction chunks with
  | nil =>
    intro st p hp
    simp only [Lib.writeChunks, List.flatten_nil, List.append_nil]
    rw [v2hashLoop_small st p hp]
  | cons c cs ih =>
    intro st p hp
    have hred : Lib.writeChunks ⟨st, p⟩ (c :: cs)
        = Lib.writeChunks ⟨(V2.hashLoop st (p ++ c)).1, (V2.hashLoop st (p ++ c)).2⟩ cs := by
      rw [Lib.writeChunks, lib_write_eq st p c hp]
    rw [hred, ih _ _ (v2hashLoop_snd_len st (p ++ c))]
    rw [show p ++ (c :: cs).flatten = (p ++ c) ++ cs.flatten by simp]
    rw [v2hashLoop_append st (p ++ c) cs.flatten]

/-- C2: the aligned stream hasher of src/lib.rs is chunking-invariant. For
every seed and every partition of a byte sequence into consecutive chunks,
feeding the chunks through successive write calls and then finish yields the
same digest as a single write of the whole sequence followed by finish; and
constructed via new_with_length(seed, total_length), that digest equals the
one-shot v2 hash of the sequence with that seed. -/
theorem aligned_hasher_chunked_write_equiv :
    (∀ (seed : Nat) (chunks : List (List Nat)),
        (Lib.writeChunks (Lib.Mx3Hasher.new seed) chunks).map Lib.finish
          = (Lib.write (Lib.Mx3Hasher.new seed) chunks.flatten).map Lib.finish)
    ∧ (∀ (seed : Nat) (chunks : List (List Nat)),
        (Lib.writeChunks (Lib.Mx3Hasher.new_with_length seed chunks.flatten.length)
            chunks).map Lib.finish
          = some (V2.hash chunks.flatten seed)) := by
  constructor
  · intro seed chunks
    rw [show Lib.Mx3Hasher.new seed = ⟨seed, []⟩ from rfl]
    rw [lib_writeChunks_eq chunks seed [] (by simp)]
    rw [lib_write_eq seed [] chunks.flatten (by simp)]
  · intro seed chunks
    rw [show Lib.Mx3Hasher.new_with_length seed chunks.flatten.length
        = ⟨seed ^^^ chunks.flatten.length, []⟩ from rfl]
    rw [lib_writeChunks_eq chunks (seed ^^^ chunks.flatten.length) [] (by simp)]
    rw [Option.map_some', v2hash_eq_finish]
    rw [show ([] : List Nat) ++ chunks.flatten = chunks.flatten from rfl]

lemma v3hashWordLoop_small (st : Nat) (l : List Nat) (hlt : l.length < 8) :
    V3.hashWordLoop st l = (st, l) := by
  rcases l with _ | ⟨b0, _ | ⟨b1, _ | ⟨b2, _ | ⟨b3, _ | ⟨b4, _ | ⟨b5, _ | ⟨b6, _ | ⟨b7, t⟩⟩⟩⟩⟩⟩⟩⟩ <;>
    first
      | rfl
      | (exfalso; simp at hlt; omega)

lemma v3hashWordLoop_peel (st : Nat) (l : List Nat) (hge : 8 ≤ l.length) :
    V3.hashWordLoop st l
      = V3.hashWordLoop (V3.mix_stream_2 st (fromLe8 (l.take 8))) (l.drop 8) := by
  rcases l with _ | ⟨b0, _ | ⟨b1, _ | ⟨b2, _ | ⟨b3, _ | ⟨b4, _ | ⟨b5, _ | ⟨b6, _ | ⟨b7, t⟩⟩⟩⟩⟩⟩⟩⟩ <;>
    first
      | rfl
      | (exfalso; simp at hge)

lemma v3hashWordLoop_snd_len_aux :
    ∀ n (l : List Nat) (st : Nat), l.length ≤ n → ((V3.hashWordLoop st l).2).length < 8 := by
  intro n
  induction n with
  | zero =>
    intro l st hle
    rw [v3hashWordLoop_small st l (by omega)]
    simp
    omega
  | succ n ih =>
    intro l st hle
    by_cases h8 : 8 ≤ l.length
    · rw [v3hashWordLoop_peel st l h8]
      exact ih _ _ (by simp; omega)
    · rw [v3hashWordLoop_small st l (by omega)]
      simp
      omega

lemma v3hashWordLoop_snd_len (st : Nat) (l : List Nat) : ((V3.hashWordLoop st l).2).length < 8 :=
  v3hashWordLoop_snd_len_aux l.length l st le_rfl

lemma v3hashTail_isSome (o : Nat) (r : List Nat) (hlt : r.length < 8) :
    (V3.hashTail o r).isSome = true := by
  rcases hn : r.length with _ | _ | _ | _ | _ | _ | _ | _ | n <;>
    first
      | omega
      | (rw [V3.hashTail.eq_def, hn]; rfl)

lemma v3blockF_small (out : Nat) (r : List Nat) (hr : r.length < 64) :
    ∀ fuel, V3.hashBlockLoopF out r fuel = (out, r) := by
  intro fuel
  cases fuel with
  | zero => rfl
  | succ fuel => rw [V3.hashBlockLoopF, if_neg (by omega)]

lemma v3blockF_irrel :
    ∀ f1 f2 (out : Nat) (r : List Nat), r.length ≤ f1 → r.length ≤ f2 →
      V3.hashBlockLoopF out r f1 = V3.hashBlockLoopF out r f2 := by
  intro f1
  induction f1 with
  | zero =>
    intro f2 out r h1 h2
    rw [v3blockF_small out r (by omega) 0, v3blockF_small out r (by omega) f2]
  | succ f1 ih =>
    intro f2 out r h1 h2
    by_cases h64 : 64 ≤ r.length
    · cases f2 with
      | zero => omega
      | succ f2 =>
        conv_lhs => rw [V3.hashBlockLoopF]
        conv_rhs => rw [V3.hashBlockLoopF]
        rw [if_pos h64, if_pos h64]
        dsimp only
        exact ih f2 _ _ (by simp; omega) (by simp; omega)
    · rw [v3blockF_small out r (by omega), v3blockF_small out r (by omega)]

lemma v3block_small (out : Nat) (r : List Nat) (hr : r.length < 64) :
    V3.hashBlockLoop out r = (out, r) := by
  rw [V3.hashBlockLoop, v3blockF_small out r hr]

lemma v3block_peel (out : Nat) (r : List Nat) (h64 : 64 ≤ r.length) :
    V3.hashBlockLoop out r
      = V3.hashBlockLoop
          (V3.mix_stream_5
            (V3.mix_stream_5 out
              (fromLe8 (((r.take 64).drop 0).take 8)) (fromLe8 (((r.take 64).drop 8).take 8))
              (fromLe8 (((r.take 64).drop 16).take 8)) (fromLe8 (((r.take 64).drop 24).take 8)))
            (fromLe8 (((r.take 64).drop 32).take 8)) (fromLe8 (((r.take 64).drop 40).take 8))
            (fromLe8 (((r.take 64).drop 48).take 8)) (fromLe8 (((r.take 64).drop 56).take 8)))
          (r.drop 64) := by
  rw [V3.hashBlockLoop, V3.hashBlockLoop]
  obtain ⟨m, hm⟩ : ∃ m, r.length = m + 1 := ⟨r.length - 1, by omega⟩
  rw [hm, V3.hashBlockLoopF, if_pos h64]
  dsimp only
  exact v3blockF_irrel m (r.drop 64).length _ _ (by simp; omega) le_rfl

lemma v3_ms5_eq_ms2 (h a b c d : Nat) :
    V3.mix_stream_5 h a b c d
      = V3.mix_stream_2 (V3.mix_stream_2 (V3.mix_stream_2 (V3.mix_stream_2 h a) b) c) d := rfl

lemma take64_window (l : List Nat) (k : Nat) (hk : k + 8 ≤ 64) :
    ((l.take 64).drop k).take 8 = (l.drop k).take 8 := by
  rw [List.drop_take, List.take_take]
  congr 1
  omega

lemma v3_block_word_aux :
    ∀ n (l : List Nat) (st : Nat), l.length ≤ n →
      V3.hashWordLoop (V3.hashBlockLoop st l).1 (V3.hashBlockLoop st l).2
        = V3.hashWordLoop st l := by
  intro n
  induction n with
  | zero =>
    intro l st hle
    rw [v3block_small st l (by omega)]
  | succ n ih =>
    intro l st hle
    by_cases h64 : 64 ≤ l.length
    · rw [v3block_peel st l h64]
      rw [ih (l.drop 64) _ (by simp; omega)]
      rw [v3hashWordLoop_peel st l (by omega)]
      rw [v3hashWordLoop_peel _ (l.drop 8) (by simp; omega)]
      rw [v3hashWordLoop_peel _ ((l.drop 8).drop 8) (by simp; omega)]
      rw [v3hashWordLoop_peel _ (((l.drop 8).drop 8).drop 8) (by simp; omega)]
      rw [v3hashWordLoop_peel _ ((((l.drop 8).drop 8).drop 8).drop 8) (by simp; omega)]
      rw [v3hashWordLoop_peel _ (((((l.drop 8).drop 8).drop 8).drop 8).drop 8)
        (by simp; omega)]
      rw [v3hashWordLoop_peel _ ((((((l.drop 8).drop 8).drop 8).drop 8).drop 8).drop 8)
        (by simp; omega)]
      rw [v3hashWordLoop_peel _ (((((((l.drop 8).drop 8).drop 8).drop 8).drop 8).drop 8).drop 8)
        (by simp; omega)]
      rw [v3_ms5_eq_ms2, v3_ms5_eq_ms2]
      rw [take64_window l 0 (by omega), take64_window l 8 (by omega),
        take64_window l 16 (by omega), take64_window l 24 (by omega),
        take64_window l 32 (by omega), take64_window l 40 (by omega),
        take64_window l 48 (by omega), take64_window l 56 (by omega)]
      simp only [List.drop_drop, List.drop_zero]
    · rw [v3block_small st l (by omega)]

/-- C9: v3's four-lane block step satisfies
mix_stream_5 h a b c d = mix_stream_2 (mix_stream_2 (mix_stream_2 (mix_stream_2 h a) b) c) d,
and consequently the 64-byte block loop of v3::hash folds exactly the same
value as processing the little-endian words one at a time with the
single-word mixer: running the word loop after the block loop equals running
the word loop alone on the whole input. -/
theorem v3_block_step_folds_single_words :
    (∀ h a b c d : Nat,
        V3.mix_stream_5 h a b c d
          = V3.mix_stream_2 (V3.mix_stream_2 (V3.mix_stream_2 (V3.mix_stream_2 h a) b) c) d)
    ∧ (∀ (st : Nat) (l : List Nat),
        V3.hashWordLoop (V3.hashBlockLoop st l).1 (V3.hashBlockLoop st l).2
          = V3.hashWordLoop st l) :=
  ⟨v3_ms5_eq_ms2, fun st l => v3_block_word_aux l.length l st le_rfl⟩

/-- C7: settled as a code bug. The panic-free parts hold: v3::hash never
reaches its unreachable!() arm (hashOpt is always some) for any buffer and
seed, and the aligned hasher's write never fails its read_exact unwrap from
any reachable state (pending count below 8). But the chunked hasher's write
is not total: on a 1026-byte input it exhausts every amount of fuel, looping
forever, because the loop re-splits the original bytes slice instead of
remain. -/
theorem core_operations_total_except_chunked_write :
    (∀ (buffer : List Nat) (seed : Nat), (V3.hashOpt buffer seed).isSome = true)
    ∧ (∀ (st : Nat) (p bytes : List Nat), p.length < 8 →
        (Lib.write ⟨st, p⟩ bytes).isSome = true)
    ∧ (∀ fuel : Nat, Chunked.write fuel (Chunked.new 5) (List.replicate 1026 7) = none) := by
  refine ⟨?_, ?_, ?_⟩
  · intro buffer seed
    exact v3hashTail_isSome _ _ (v3hashWordLoop_snd_len _ _)
  · intro st p bytes hp
    rw [lib_write_eq st p bytes hp]
    rfl
  · intro fuel
    exact chunked_write_none_of_long _ (by simp) fuel 5

/-- Witness: the aligned hasher's write is total at a concrete reachable
state. -/
theorem core_operations_total_witness :
    (Lib.write ⟨3, [1]⟩ [5, 6, 7, 8, 9, 10, 11, 12, 13]).isSome = true :=
  core_operations_total_except_chunked_write.2.1 3 [1] [5, 6, 7, 8, 9, 10, 11, 12, 13]
    (by decide)

/-- C8: the aligned stream hasher preserves the invariant that the pending
byte count lies in [0, 8) between public calls: it is 0 after new and
new_with_length, strictly below 8 after every write, and a full 8-byte
pending buffer is consumed into state by the per-word mixer and reset to
empty. -/
theorem aligned_pibuf_count_invariant :
    (∀ seed : Nat, (Lib.Mx3Hasher.new seed).pibuf.length = 0)
    ∧ (∀ seed n : Nat, (Lib.Mx3Hasher.new_with_length seed n).pibuf.length = 0)
    ∧ (∀ (st : Nat) (p bytes : List Nat), p.length < 8 →
        ∃ h2 : Lib.Mx3Hasher, Lib.write ⟨st, p⟩ bytes = some h2 ∧ h2.pibuf.length < 8)
    ∧ (∀ (st : Nat) (p : List Nat), p.length = 8 →
        Lib.applyPibuf ⟨st, p⟩ = ⟨Lib.mix_stream st (fromLe8 p), []⟩) := by
  refine ⟨fun _ => rfl, fun _ _ => rfl, ?_, fun _ _ _ => rfl⟩
  intro st p bytes hp
  exact ⟨_, lib_write_eq st p bytes hp, v2hashLoop_snd_len st (p ++ bytes)⟩

/-- Witness: the pending-count invariant at concrete inputs crossing the
8-byte boundary. -/
theorem aligned_pibuf_count_invariant_witness :
    (∃ h2 : Lib.Mx3Hasher,
        Lib.write ⟨0, [9]⟩ [1, 2, 3, 4, 5, 6, 7, 8, 9, 10] = some h2 ∧ h2.pibuf.length < 8)
    ∧ Lib.applyPibuf ⟨0, [1, 2, 3, 4, 5, 6, 7, 8]⟩
        = ⟨Lib.mix_stream 0 (fromLe8 [1, 2, 3, 4, 5, 6, 7, 8]), []⟩ :=
  ⟨aligned_pibuf_count_invariant.2.2.1 0 [9] [1, 2, 3, 4, 5, 6, 7, 8, 9, 10] (by decide),
   aligned_pibuf_count_invariant.2.2.2 0 [1, 2, 3, 4, 5, 6, 7, 8] (by decide)⟩

/-- C10: the crate-root module of src/lib.rs is functionally identical to the
v2 module: mix agrees on every input, hash agrees on every buffer and seed,
and the PRNGs constructed from the same seed agree on state, next_u64 and
next_u32 at every counter, hence produce identical draw sequences. -/
theorem crate_root_module_equals_v2 :
    (∀ x : Nat, Lib.mix x = V2.mix x)
    ∧ (∀ (buffer : List Nat) (seed : Nat), Lib.hash buffer seed = V2.hash buffer seed)
    ∧ (∀ seed : Nat, Lib.rng_new seed = V2.rng_new seed)
    ∧ (∀ c : Nat, Lib.rng_state c = V2.rng_state c ∧ Lib.next_u64 c = V2.next_u64 c
        ∧ Lib.next_u32 c = V2.next_u32 c)
    ∧ (∀ c n : Nat, Lib.draws c n = V2.draws c n) := by
  refine ⟨fun _ => rfl, ?_, fun _ => rfl, fun _ => ⟨rfl, rfl, rfl⟩, ?_⟩
  · intro buffer seed
    rw [Lib.hash.eq_def]
    rw [show Lib.Mx3Hasher.new_with_length seed buffer.length
        = (⟨seed ^^^ buffer.length, []⟩ : Lib.Mx3Hasher) from rfl]
    rw [lib_write_eq (seed ^^^ buffer.length) [] buffer (by simp)]
    rw [v2hash_eq_finish buffer seed]
    rw [show ([] : List Nat) ++ buffer = buffer from rfl]
  · intro c n
    induction n generalizing c with
    | zero => rfl
    | succ n ih =>
      rw [Lib.draws, V2.draws, ih]
      rfl
